import Mathlib

/-!
Verification development for the BIRD-XML repair engine of this repository.

The engine lives in two variants:
  * `src/lib/xml-repair.js` (class `XMLRepairTool`): analysis (`analyzeXML`),
    iterated null-candidate repair (`repairNullCandidates`,
    `removeNullCandidateReferences`), unused-prompt repair
    (`repairUnusedPrompts`) and the driver `repairXML`;
  * the component-embedded variant (`fixXmlReport` with its inner
    `collectIds`, `fixDuplicates`, `removeUnusedPrompts`).

Shallow embedding conventions:
  * XML documents are trees (`XElem` / `XForest`).  The browser DOM
    parse/serialize round trip between passes is modelled as the identity
    on trees; base64 transport encoding is dropped (the `file` field holds
    the tree itself).
  * `getElementsByTagName` on a Document (xml-repair.js) enumerates the
    root and all descendants in document (preorder) order; on an Element
    (the component variant) it enumerates descendants only.  Both are
    modelled by explicit preorder enumerations.
  * `textContent` reads the concatenation of all descendant text; writing
    it replaces the element's children by a single text node (or nothing
    for the empty string) -- the real DOM setter semantics.
  * Live collections (`getElementsByTagName`, `attributes`) iterated with
    `for...of` are modelled by an index that is checked against the
    re-computed current collection on every step; the iteration is driven
    by a fuel argument equal to the initial collection size, which bounds
    the number of steps since mutations never add elements or attributes.
  * Mutating a detached node (one no longer reachable from the root) has
    no effect on the serialized document; it is modelled as a no-op.
  * JavaScript numbers appear only through `parseInt(..., 10)` and
    counter increments; they are modelled as `Option Int` with `none`
    playing the role of `NaN`.
  * `new RegExp(name, 'g')` replacement in the duplicate-rename pass is
    modelled as literal global substring replacement, which coincides
    with the JS behaviour whenever the name contains no regex
    metacharacters (identifier-shaped names never do).
-/

namespace BirdRepair

/-! ## Character classes used by the JS regexes -/

def isLowerJS (c : Char) : Bool := 'a' ≤ c && c ≤ 'z'

def isUpperJS (c : Char) : Bool := 'A' ≤ c && c ≤ 'Z'

def isDigitJS (c : Char) : Bool := '0' ≤ c && c ≤ '9'

def isAlnumJS (c : Char) : Bool := isLowerJS c || isUpperJS c || isDigitJS c

/-- Membership in the JS `\s` class, restricted to the ASCII whitespace
characters that can occur in the documents we model. -/
def isWsJS (c : Char) : Bool :=
  c = ' ' || c = '\t' || c = '\n' || c = '\x0d' || c = '\x0b' || c = '\x0c'

def isHexDigitJS (c : Char) : Bool :=
  isDigitJS c || ('a' ≤ c && c ≤ 'f') || ('A' ≤ c && c ≤ 'F')

def toLowerCharJS (c : Char) : Char :=
  if isUpperJS c then Char.ofNat (c.toNat + 32) else c

/-- JS `String.prototype.toLowerCase`, ASCII fragment. -/
def toLowerJS (s : String) : String := String.mk (s.data.map toLowerCharJS)

/-! ## List-of-characters utilities -/

def startsWithL (pat l : List Char) : Bool :=
  match pat, l with
  | [], _ => true
  | _ :: _, [] => false
  | p :: ps, c :: cs => p = c && startsWithL ps cs

/-- JS `String.prototype.includes` (substring containment). -/
def containsL (l pat : List Char) : Bool :=
  match l with
  | [] => pat.isEmpty
  | _ :: cs => startsWithL pat l || containsL cs pat

def jsIncludes (s sub : String) : Bool := containsL s.data sub.data

/-- Literal global replacement, scanning left to right without rescanning
the replacement text (the behaviour of `String.replace` with a global
regex made of literal characters). -/
def replaceAllAux (pat rep : List Char) : Nat → List Char → List Char
  | 0, l => l
  | _ + 1, [] => []
  | fuel + 1, c :: cs =>
      if pat ≠ [] && startsWithL pat (c :: cs) then
        rep ++ replaceAllAux pat rep fuel ((c :: cs).drop pat.length)
      else
        c :: replaceAllAux pat rep fuel cs

def replaceAllL (l pat rep : List Char) : List Char :=
  replaceAllAux pat rep l.length l

def jsReplaceAll (s pat rep : String) : String :=
  String.mk (replaceAllL s.data pat.data rep.data)

/-- JS `String.prototype.trim`. -/
def trimJS (s : String) : String :=
  String.mk (((s.data.dropWhile isWsJS).reverse.dropWhile isWsJS).reverse)

/-- JS `"...".split(/\s+/)`: pieces between maximal whitespace runs,
including an empty leading piece when the string starts with whitespace
and an empty trailing piece when it ends with one. -/
def splitWsAux : Nat → List Char → List String
  | 0, l => [String.mk l]
  | fuel + 1, l =>
      let tok := l.takeWhile (fun c => !isWsJS c)
      let rest := l.dropWhile (fun c => !isWsJS c)
      match rest with
      | [] => [String.mk tok]
      | _ :: _ => String.mk tok :: splitWsAux fuel (rest.dropWhile isWsJS)

def splitWsJS (s : String) : List String := splitWsAux s.data.length s.data

/-- JS `parseInt(s, 10)`: skip leading whitespace, read an optional sign
and then a maximal run of decimal digits; `none` models `NaN`. -/
def parseIntJS (s : String) : Option Int :=
  let l := s.data.dropWhile isWsJS
  let (neg, l2) : Bool × List Char :=
    match l with
    | '-' :: rest => (true, rest)
    | '+' :: rest => (false, rest)
    | _ => (false, l)
  let ds := l2.takeWhile isDigitJS
  if ds.isEmpty then none
  else
    let n : Nat := ds.foldl (fun a c => a * 10 + (c.toNat - 48)) 0
    some (if neg then -(n : Int) else (n : Int))

/-- JS numbers as they occur in the engine: `none` models `NaN`. -/
def JSNum := Option Int

def jsNumAdd1 : JSNum → JSNum
  | none => none
  | some i => some (i + 1)

def jsNumToString : JSNum → String
  | none => "NaN"
  | some i => toString i

/-! ## The identifier classifier -/

/-- Full-string match of the JS regex `/^[a-z]{2}[0-9]+$/` (`idCheck`). -/
def isIdShape (s : String) : Bool :=
  match s.data with
  | c1 :: c2 :: rest =>
      isLowerJS c1 && isLowerJS c2 && !rest.isEmpty && rest.all isDigitJS
  | _ => false

/-- Full-string match of `/^[a-fA-F0-9]{6}$/` (HTML colour codes). -/
def isHex6 (s : String) : Bool :=
  s.data.length = 6 && s.data.all isHexDigitJS

def jsStartsWith (s p : String) : Bool := startsWithL p.data s.data

/-! ## Insertion-ordered string sets (JS `Set`) -/

def slInsert (l : List String) (x : String) : List String :=
  if x ∈ l then l else l ++ [x]

/-! ## The document model

An element has a tag, an ordered attribute list and an ordered sequence of
children, each of which is an element or a text node.  This mirrors the
DOM tree the JS code manipulates (comments, PIs and CDATA do not occur in
the documents the claims are about). -/

mutual
inductive XElem : Type where
  | mk (tag : String) (attrs : List (String × String)) (children : XForest)
inductive XForest : Type where
  | nil : XForest
  | consE (e : XElem) (rest : XForest) : XForest
  | consT (s : String) (rest : XForest) : XForest
end

def XElem.tag : XElem → String
  | .mk t _ _ => t

def XElem.attrs : XElem → List (String × String)
  | .mk _ a _ => a

def XElem.children : XElem → XForest
  | .mk _ _ c => c

/-- DOM `getAttribute` (first — and in well-formed documents only —
attribute with the given name; `null` is `none`). -/
def getAttrL (attrs : List (String × String)) (n : String) : Option String :=
  match attrs with
  | [] => none
  | (an, av) :: rest => if an = n then some av else getAttrL rest n

def XElem.getAttr (e : XElem) (n : String) : Option String :=
  getAttrL e.attrs n

/-- DOM `setAttribute`: replace the value in place if the attribute
exists, otherwise append it. -/
def setAttrL (attrs : List (String × String)) (n v : String) :
    List (String × String) :=
  match attrs with
  | [] => [(n, v)]
  | (an, av) :: rest =>
      if an = n then (an, v) :: rest else (an, av) :: setAttrL rest n v

def XElem.setAttr (e : XElem) (n v : String) : XElem :=
  .mk e.tag (setAttrL e.attrs n v) e.children

/-- DOM `removeAttribute`. -/
def XElem.removeAttr (e : XElem) (n : String) : XElem :=
  .mk e.tag (e.attrs.filter (fun a => a.1 ≠ n)) e.children

/-! DOM `textContent` getter: concatenation of all descendant text. -/
mutual
def textContentE : XElem → String
  | .mk _ _ cs => textContentF cs
def textContentF : XForest → String
  | .nil => ""
  | .consE e r => textContentE e ++ textContentF r
  | .consT s r => s ++ textContentF r
end

/-- DOM `textContent` setter: all children are replaced by a single text
node, or removed entirely when the new value is the empty string. -/
def XElem.setTextContent (e : XElem) (s : String) : XElem :=
  .mk e.tag e.attrs (if s = "" then .nil else .consT s .nil)

/-! Number of elements in the subtree rooted at `e`, the root included
(the size of `document.getElementsByTagName('*')`). -/
mutual
def countE : XElem → Nat
  | .mk _ _ cs => 1 + countF cs
def countF : XForest → Nat
  | .nil => 0
  | .consE e r => countE e + countF r
  | .consT _ r => countF r
end

/-! Preorder (document-order) list of the elements of the subtree rooted
at `e`, the root included: `document.getElementsByTagName('*')`. -/
mutual
def listE : XElem → List XElem
  | .mk t a cs => .mk t a cs :: listF cs
def listF : XForest → List XElem
  | .nil => []
  | .consE e r => listE e ++ listF r
  | .consT _ r => listF r
end

/-- Descendants-only preorder list: `element.getElementsByTagName('*')`. -/
def listDesc (e : XElem) : List XElem := listF e.children

/-! Apply `f` to the element at preorder index `i` (the root having index
0); out-of-range indices leave the tree unchanged.  The second component
reports either that the index was consumed or how many elements remain to
be skipped. -/
mutual
def modE (f : XElem → XElem) : Nat → XElem → XElem × Option Nat
  | 0, e => (f e, none)
  | i + 1, .mk t a cs =>
      let (cs2, o) := modF f i cs
      (.mk t a cs2, o)
def modF (f : XElem → XElem) : Nat → XForest → XForest × Option Nat
  | i, .nil => (.nil, some i)
  | i, .consE e r =>
      match modE f i e with
      | (e2, none) => (.consE e2 r, none)
      | (_, some j) =>
          let (r2, o) := modF f j r
          (.consE e r2, o)
  | i, .consT s r =>
      let (r2, o) := modF f i r
      (.consT s r2, o)
end

/-! ## xml-repair.js: `analyzeXML`

The namespace `XR` embeds the `XMLRepairTool` methods of
`src/lib/xml-repair.js`. -/

namespace XR

/-- Text scan of `analyzeXML`: the matches of `/[a-z]{2}[0-9]+/g` found
by the `regex.exec` loop, kept only when the characters just before and
just after the match (if any) avoid `/[A-Za-z0-9#]/`.  `prev` is the
character immediately before the current scan position.  Failed attempts
advance one position; matches (boundary-valid or not) advance past their
end, as `lastIndex` does. -/
def scanIdsAux : Nat → Option Char → List Char → List String
  | 0, _, _ => []
  | _ + 1, _, [] => []
  | _ + 1, _, [_] => []
  | fuel + 1, prev, c1 :: c2 :: rest2 =>
      if isLowerJS c1 && isLowerJS c2 then
        match rest2 with
        | [] => []
        | c3 :: rest3 =>
            if isDigitJS c3 then
              let ds := rest3.takeWhile isDigitJS
              let after := rest3.dropWhile isDigitJS
              let m := c1 :: c2 :: c3 :: ds
              let beforeOk :=
                match prev with
                | none => true
                | some b => !(isAlnumJS b || b = '#')
              let afterOk :=
                match after with
                | [] => true
                | a :: _ => !(isAlnumJS a || a = '#')
              let tail := scanIdsAux fuel (some ((c3 :: ds).getLast (by simp))) after
              if beforeOk && afterOk then String.mk m :: tail else tail
            else
              scanIdsAux fuel (some c1) (c2 :: rest2)
      else
        scanIdsAux fuel (some c1) (c2 :: rest2)

def scanIds (s : String) : List String :=
  scanIdsAux s.data.length none s.data

/-- First pass of `analyzeXML`: all `name` attribute values matching
`idCheck`. -/
def definedIds (root : XElem) : List String :=
  (listE root).foldl
    (fun acc e =>
      match e.getAttr "name" with
      | some n => if isIdShape n then slInsert acc n else acc
      | none => acc)
    []

/-- Contribution of one element to the referenced-id set: whitespace
tokens of every non-`name` attribute value that match `idCheck`, then the
boundary-checked matches in the trimmed text content. -/
def refStep (acc : List String) (e : XElem) : List String :=
  let acc1 :=
    e.attrs.foldl
      (fun a attr =>
        if attr.1 ≠ "name" then
          (splitWsJS attr.2).foldl
            (fun a2 w => if isIdShape w then slInsert a2 w else a2) a
        else a)
      acc
  if textContentE e ≠ "" && trimJS (textContentE e) ≠ "" then
    (scanIds (trimJS (textContentE e))).foldl slInsert acc1
  else acc1

/-- Second pass of `analyzeXML`: ids referenced from non-`name`
attributes and from text content. -/
def referencedIds (root : XElem) : List String :=
  (listE root).foldl refStep []

/-- The false-positive filter applied to `referencedIds − definedIds`:
colour codes, common label words (case-insensitively) and the literal
`bi1` are skipped. -/
def ncKeep (c : String) : Bool :=
  !isHex6 c
    && !((["label", "title", "name", "id"] : List String).contains (toLowerJS c))
    && c ≠ "bi1"

/-- `analysis.nullCandidateIds`: referenced-but-not-defined ids that
survive the false-positive filter. -/
def nullCandidateIds (root : XElem) : List String :=
  ((referencedIds root).filter (fun i => !(definedIds root).contains i)).filter
    ncKeep

/-- Declared prompt ids: `name` starts with `pr` and matches `idCheck`. -/
def promptIds (root : XElem) : List String :=
  (listE root).foldl
    (fun acc e =>
      match e.getAttr "name" with
      | some n =>
          if jsStartsWith n "pr" && isIdShape n then slInsert acc n else acc
      | none => acc)
    []

/-- Prompt ids referenced as a whole non-`name` attribute value or as a
substring of some element's text content. -/
def referencedPromptIds (root : XElem) : List String :=
  let pids := promptIds root
  (listE root).foldl
    (fun acc e =>
      let acc1 :=
        e.attrs.foldl
          (fun a attr =>
            if attr.1 ≠ "name" && pids.contains attr.2 then slInsert a attr.2
            else a)
          acc
      if textContentE e ≠ "" then
        pids.foldl
          (fun a pid =>
            if jsIncludes (textContentE e) pid then slInsert a pid else a)
          acc1
      else acc1)
    []

/-- `unusedPrompts`: declared prompt ids with no reference. -/
def unusedPrompts (root : XElem) : List String :=
  (promptIds root).filter (fun i => !(referencedPromptIds root).contains i)

/-- Duplicate-name groups of `findDuplicateObjects`: each `name` value
with, in document order, the tags of its declaring elements. -/
def dupGroups (root : XElem) : List (String × List String) :=
  (listE root).foldl
    (fun acc e =>
      match e.getAttr "name" with
      | some n =>
          match acc.lookup n with
          | some tags =>
              acc.map (fun g => if g.1 = n then (g.1, tags ++ [e.tag]) else g)
          | none => acc ++ [(n, [e.tag])]
      | none => acc)
    []

def legitimateNames : List String :=
  ["CATEGORY", "RESPONSE", "GROUP", "COLUMN", "ROW", "TIP",
   "KEY_FRAME", "HIDDEN", "X", "Y"]

/-- Filter of `findDuplicateObjects`: keep only groups with more than one
declaring element that are not one of the known-benign duplication
patterns. -/
def problematicGroup (g : String × List String) : Bool :=
  g.2.length > 1
    && !(g.2.all (· = "DynVar"))
    && !(legitimateNames.contains g.1)
    && !(g.2.all (· = "Category"))
    && !(g.2.all (· = "Property"))
    && !(g.2.all (· = "KeyValue"))
    && !(g.2.all (· = "HistogramParm"))

/-- `analysis.duplicates`: the size of the problematic-duplicates map. -/
def duplicatesCount (root : XElem) : Nat :=
  ((dupGroups root).filter problematicGroup).length

structure AnalysisX where
  totalObjects : Nat
  nullCandidateIdList : List String
  nullCandidates : Nat
  prompts : Nat
  duplicates : Nat
deriving Repr, DecidableEq

/-- `analyzeXML` of xml-repair.js, restricted to the fields the engine
and the claims consume (`objectTypes` feeds only the textual report). -/
def analyzeXML (root : XElem) : AnalysisX :=
  { totalObjects := (listE root).length
    nullCandidateIdList := nullCandidateIds root
    nullCandidates := (nullCandidateIds root).length
    prompts := (unusedPrompts root).length
    duplicates := duplicatesCount root }

/-! ## xml-repair.js: `removeNullCandidateReferences` -/

/-- One global pass of the regex
`/\$\{nc(?:,[^}]*)?\}/g` with empty replacement: an occurrence is
`$`, `{`, the candidate, then either `}` directly or `,` followed by
non-`}` characters and `}`.  Failed attempts advance one position. -/
def removeDollarAux (nc : List Char) : Nat → List Char → List Char
  | 0, l => l
  | _ + 1, [] => []
  | fuel + 1, c :: cs =>
      if startsWithL ('$' :: '\x7b' :: nc) (c :: cs) then
        let after := (c :: cs).drop (2 + nc.length)
        match after with
        | '\x7d' :: rest => removeDollarAux nc fuel rest
        | ',' :: rest =>
            let inner := rest.takeWhile (fun a => a ≠ '\x7d')
            let past := rest.dropWhile (fun a => a ≠ '\x7d')
            match inner, past with
            | _, '\x7d' :: rest2 => removeDollarAux nc fuel rest2
            | _, _ => c :: removeDollarAux nc fuel cs
        | _ => c :: removeDollarAux nc fuel cs
      else
        c :: removeDollarAux nc fuel cs

/-- One global pass of
`/(?<![A-Za-z0-9#])nc(?![A-Za-z0-9])/g` with empty replacement.  `prev`
is the character just before the current position in the original
string; both lookarounds are evaluated on the original string. -/
def removeBoundaryAux (nc : List Char) : Nat → Option Char → List Char → List Char
  | 0, _, l => l
  | _ + 1, _, [] => []
  | fuel + 1, prev, c :: cs =>
      let beforeOk :=
        match prev with
        | none => true
        | some b => !(isAlnumJS b || b = '#')
      let afterOk :=
        match (c :: cs).drop nc.length with
        | [] => true
        | a :: _ => !isAlnumJS a
      if nc ≠ [] && startsWithL nc (c :: cs) && beforeOk && afterOk then
        removeBoundaryAux nc fuel (some (nc.getLastD ' '))
          ((c :: cs).drop nc.length)
      else
        c :: removeBoundaryAux nc fuel (some c) cs

/-- `/\s+/g → " "`. -/
def collapseWsAux : Nat → List Char → List Char
  | 0, l => l
  | _ + 1, [] => []
  | fuel + 1, c :: cs =>
      if isWsJS c then ' ' :: collapseWsAux fuel (cs.dropWhile isWsJS)
      else c :: collapseWsAux fuel cs

/-- `/,\s*,/g → ","`. -/
def collapseCommaAux : Nat → List Char → List Char
  | 0, l => l
  | _ + 1, [] => []
  | fuel + 1, c :: cs =>
      if c = ',' then
        match cs.dropWhile isWsJS with
        | ',' :: rest => ',' :: collapseCommaAux fuel rest
        | _ => c :: collapseCommaAux fuel cs
      else c :: collapseCommaAux fuel cs

/-- `/\(\s*\)/g → "()"`. -/
def collapseParenAux : Nat → List Char → List Char
  | 0, l => l
  | _ + 1, [] => []
  | fuel + 1, c :: cs =>
      if c = '(' then
        match cs.dropWhile isWsJS with
        | ')' :: rest => '(' :: ')' :: collapseParenAux fuel rest
        | _ => c :: collapseParenAux fuel cs
      else c :: collapseParenAux fuel cs

/-- The per-candidate cleanup steps of `removeNullCandidateReferences`,
in source order. -/
def cleanOneCandidate (t : String) (nc : String) : String :=
  let l1 := removeDollarAux nc.data t.data.length t.data
  let l2 := removeBoundaryAux nc.data l1.length none l1
  let l3 := collapseWsAux l2.length l2
  let l4 := collapseCommaAux l3.length l3
  let l5 := collapseParenAux l4.length l4
  String.mk l5

/-- `removeNullCandidateReferences(text, nullCandidates)`. -/
def removeNullCandidateReferences (text : String) (ncs : List String) : String :=
  if text = "" then text
  else trimJS (ncs.foldl cleanOneCandidate text)

/-! ## xml-repair.js: `repairNullCandidates` -/

/-- Live iteration over `elem.attributes` in `repairNullCandidates`.
`j` is the iterator index into the current attribute list; removal of the
current attribute shifts later attributes down, and the iterator still
advances, skipping the shifted one — the live-`NamedNodeMap` behaviour. -/
def cleanAttrsAux (ncs : List String) : Nat → Nat → List (String × String) →
    List (String × String)
  | 0, _, attrs => attrs
  | fuel + 1, j, attrs =>
      match attrs[j]? with
      | none => attrs
      | some (an, av) =>
          if an ≠ "name" && av ≠ "" && ncs.any (fun nc => jsIncludes av nc) then
            let cleaned := removeNullCandidateReferences av ncs
            if cleaned ≠ av then
              if trimJS cleaned ≠ "" then
                cleanAttrsAux ncs fuel (j + 1)
                  (attrs.map (fun a => if a.1 = an then (a.1, cleaned) else a))
              else
                cleanAttrsAux ncs fuel (j + 1) (attrs.filter (fun a => a.1 ≠ an))
            else cleanAttrsAux ncs fuel (j + 1) attrs
          else cleanAttrsAux ncs fuel (j + 1) attrs

/-- Processing of a single element in `repairNullCandidates`: clean the
non-`name` attributes, then — if the text content contains a candidate
and cleaning changes it — assign `textContent`, which replaces all
children. -/
def cleanElem (ncs : List String) (e : XElem) : XElem :=
  let e1 := XElem.mk e.tag (cleanAttrsAux ncs e.attrs.length 0 e.attrs) e.children
  let tc := textContentE e1
  if tc ≠ "" && ncs.any (fun nc => jsIncludes tc nc) then
    let cleaned := removeNullCandidateReferences tc ncs
    if cleaned ≠ tc then e1.setTextContent cleaned else e1
  else e1

/-- Live iteration over `doc.getElementsByTagName('*')`: index `i` is
checked against the re-computed element count each step, so elements
deleted by a `textContent` assignment stop being visited. -/
def cleanLoop (ncs : List String) : Nat → Nat → XElem → XElem
  | 0, _, root => root
  | fuel + 1, i, root =>
      if i < countE root then
        cleanLoop ncs fuel (i + 1) ((modE (cleanElem ncs) i root).1)
      else root

/-- `repairNullCandidates(doc, nullCandidateIds)` (the serialize/parse
round trip around it is the identity on trees). -/
def repairNullCandidates (root : XElem) (ncs : List String) : XElem :=
  if ncs.length = 0 then root
  else cleanLoop ncs (countE root) 0 root

/-! ## xml-repair.js: `repairUnusedPrompts` -/

/-! Removal of every element whose `name` equals `id`, the whole subtree
included; a removed root leaves an empty document (`none`).  Removing the
collected elements one by one from their parents has exactly this effect:
nested occurrences are detached together with their ancestor, and
detaching them again does not change the document. -/
mutual
def removeNamedE (id : String) (e : XElem) : Option XElem :=
  match e with
  | .mk t a cs =>
      if getAttrL a "name" = some id then none
      else some (.mk t a (removeNamedF id cs))
def removeNamedF (id : String) : XForest → XForest
  | .nil => .nil
  | .consE (.mk t a cs) r =>
      if getAttrL a "name" = some id then removeNamedF id r
      else .consE (.mk t a (removeNamedF id cs)) (removeNamedF id r)
  | .consT s r => .consT s (removeNamedF id r)
end

def removeNamedO (id : String) : Option XElem → Option XElem
  | none => none
  | some e => removeNamedE id e

/-- `repairUnusedPrompts(doc)`: recompute the unused-prompt set on the
current document, then remove all declaring elements of each unused
prompt in turn. -/
def repairUnusedPrompts (root : XElem) : Option XElem :=
  (unusedPrompts root).foldl (fun acc id => removeNamedO id acc) (some root)

/-! ## xml-repair.js: `repairXML` -/

/-- The `while (analysis.nullCandidates > 0 && nullCandidateLoopCount < 10)`
loop: returns the final document, the final (freshly recomputed)
analysis and the number of iterations performed. -/
def nullLoop : Nat → XElem → AnalysisX → XElem × AnalysisX × Nat
  | 0, d, a => (d, a, 0)
  | fuel + 1, d, a =>
      if a.nullCandidates > 0 then
        let d2 := repairNullCandidates d a.nullCandidateIdList
        let r := nullLoop fuel d2 (analyzeXML d2)
        (r.1, r.2.1, r.2.2 + 1)
      else (d, a, 0)

structure RepairResultX where
  file : Option XElem
  duplicates : Nat
  prompts : Nat
  nullCandidates : Nat
  hasDuplicates : Bool
  hasPrompts : Bool
  hasNullCandidates : Bool
  totalObjects : Nat
  hasRepairs : Bool

/-- `repairXML(xmlContent)`: initial analysis, the iterated
null-candidate repair, then unused-prompt repair if the (post-loop)
analysis still reports prompts.  `originalAnalysis = { ...analysis }` is
taken from the post-loop `analysis` variable, exactly as in the source. -/
def repairXML (doc : XElem) : RepairResultX :=
  let a0 := analyzeXML doc
  let r := nullLoop 10 doc a0
  let orig := r.2.1
  { file := if orig.prompts > 0 then repairUnusedPrompts r.1 else some r.1
    duplicates := orig.duplicates
    prompts := orig.prompts
    nullCandidates := orig.nullCandidateIdList.length
    hasDuplicates := orig.duplicates > 0
    hasPrompts := orig.prompts > 0
    hasNullCandidates := orig.nullCandidateIdList.length > 0
    totalObjects := orig.totalObjects
    hasRepairs := r.2.2 > 0 || orig.prompts > 0 }

end XR

/-! ## The component variant: `fixXmlReport`

The namespace `P0` embeds the repair logic embedded in the upload
component (`fixXmlReport` with its inner helpers `collectIds`,
`fixDuplicates` and `removeUnusedPrompts`).  All scans there use
`root.getElementsByTagName('*')`, i.e. descendants of the document
element only.  Elements collected into `idUsed` are DOM node references;
they are modelled as paths (sequences of child positions) into the tree
at collection time.  A path invalidated by a later subtree replacement
corresponds to a detached node, whose mutation no longer affects the
document, so mutation through a dangling path is a no-op. -/

namespace P0

/-- A path to a descendant element: positions (counting both element and
text children) within successive `children` forests. -/
def Path := List Nat

/-! Preorder list of the descendant elements of `e` together with their
paths. -/
mutual
def descPathsE (pre : List Nat) (e : XElem) : List (List Nat × XElem) :=
  match e with
  | .mk _ _ cs => descPathsF pre 0 cs
def descPathsF (pre : List Nat) (i : Nat) : XForest → List (List Nat × XElem)
  | .nil => []
  | .consE c r =>
      (pre ++ [i], c) :: descPathsE (pre ++ [i]) c ++ descPathsF pre (i + 1) r
  | .consT _ r => descPathsF pre (i + 1) r
end

def descPaths (root : XElem) : List (List Nat × XElem) := descPathsE [] root

/-! Apply `f` to the element at `p` below `root`; dangling paths leave
the tree unchanged (detached-node mutation). -/
mutual
def modPathE (f : XElem → XElem) (p : List Nat) (e : XElem) : XElem :=
  match p, e with
  | [], e => e
  | i :: rest, .mk t a cs => .mk t a (modPathF f i rest cs)
def modPathF (f : XElem → XElem) (i : Nat) (rest : List Nat) :
    XForest → XForest
  | .nil => .nil
  | .consE c r =>
      match i with
      | 0 =>
          match rest with
          | [] => .consE (f c) r
          | _ => .consE (modPathE f rest c) r
      | j + 1 => .consE c (modPathF f j rest r)
  | .consT s r =>
      match i with
      | 0 => .consT s r
      | j + 1 => .consT s (modPathF f j rest r)
end

/-- The result of `collectIds(root)`: `idUsed` maps each `name` value to
the paths of its declaring elements (insertion order), `idReferenced`
holds the matches of `/[a-z]+\d+/g` over non-`name` attribute values and
text contents, `idDups` the names that reached a second declaration. -/
structure CollectedIds where
  idUsed : List (String × List (List Nat))
  idReferenced : List String
  idDups : List String
deriving Repr, DecidableEq

/-- Matches of the unanchored regex `/[a-z]+\d+/g`: a maximal run of
lowercase letters immediately followed by at least one digit; attempts
inside a letter run that is not followed by a digit all fail, so the
scan continues after the run. -/
def scanLooseAux : Nat → List Char → List String
  | 0, _ => []
  | _ + 1, [] => []
  | fuel + 1, c :: cs =>
      if isLowerJS c then
        let ls := c :: cs.takeWhile isLowerJS
        let r1 := cs.dropWhile isLowerJS
        let ds := r1.takeWhile isDigitJS
        match ds with
        | [] => scanLooseAux fuel r1
        | _ :: _ =>
            String.mk (ls ++ ds) :: scanLooseAux fuel (r1.dropWhile isDigitJS)
      else scanLooseAux fuel cs

def scanLoose (s : String) : List String := scanLooseAux s.data.length s.data

def addUse (acc : List (String × List (List Nat))) (n : String)
    (p : List Nat) : List (String × List (List Nat)) :=
  match acc.lookup n with
  | some ps =>
      let _ := ps
      acc.map (fun g => if g.1 = n then (g.1, g.2 ++ [p]) else g)
  | none => acc ++ [(n, [p])]

/-- `collectIds(root)` of `fixXmlReport`. -/
def collectIds (root : XElem) : CollectedIds :=
  let pass1 :=
    (descPaths root).foldl
      (fun (st : List (String × List (List Nat)) × List String) pe =>
        match pe.2.getAttr "name" with
        | some n =>
            let used := addUse st.1 n pe.1
            let dups :=
              if ((used.lookup n).getD []).length > 1 then slInsert st.2 n
              else st.2
            (used, dups)
        | none => st)
      ([], [])
  let refs :=
    (descPaths root).foldl
      (fun acc pe =>
        let acc1 :=
          pe.2.attrs.foldl
            (fun a attr =>
              if attr.1 = "name" then a
              else (scanLoose attr.2).foldl slInsert a)
            acc
        if textContentE pe.2 ≠ "" then
          (scanLoose (textContentE pe.2)).foldl slInsert acc1
        else acc1)
      []
  { idUsed := pass1.1, idReferenced := refs, idDups := pass1.2 }

/-- The leading `/^[a-z]+/` run used to mint replacement names. -/
def lowerRun (s : String) : String := String.mk (s.data.takeWhile isLowerJS)

/-- State threaded through the rename loops of `fixDuplicates`. -/
structure DupState where
  tree : XElem
  counter : Option Int
  changed : Nat

/-- Rewrite of all occurrences of `dupName` in every attribute (the
`name` attribute included — the loop has no exclusion) and every text
content of the descendants of the current root, as performed after each
rename.  Iteration is over a snapshot of the current descendants; text
assignment replaces the whole subtree of the written element. -/
def rewriteElem (dupName newName : String) (e : XElem) : XElem :=
  let e1 := XElem.mk e.tag
    (e.attrs.map (fun a =>
      if jsIncludes a.2 dupName then (a.1, jsReplaceAll a.2 dupName newName)
      else a))
    e.children
  if textContentE e1 ≠ "" && jsIncludes (textContentE e1) dupName then
    e1.setTextContent (jsReplaceAll (textContentE e1) dupName newName)
  else e1

def rewriteAll (root : XElem) (dupName newName : String) : XElem :=
  (descPaths root).foldl
    (fun t pe => modPathE (rewriteElem dupName newName) pe.1 t)
    root

/-- One rename in `fixDuplicates`: mint `prefixRun + counter`, advance
the counter, write the `name` attribute of the element (by its collected
path), then rewrite every occurrence of the old name in the whole
document. -/
def renameStep (dupName : String) (st : DupState) (p : List Nat) : DupState :=
  if lowerRun dupName = "" then st
  else
    let newName := lowerRun dupName ++ jsNumToString st.counter
    let counter2 := jsNumAdd1 st.counter
    let t1 := modPathE (fun e => e.setAttr "name" newName) p st.tree
    let t2 := rewriteAll t1 dupName newName
    { tree := t2, counter := counter2, changed := st.changed + 1 }

/-- `fixDuplicates(root)`: for every duplicated name (in detection
order), keep the first collected declaring element and rename the rest;
persist the counter on the root when anything changed.  Returns the
mutated tree and the number of renames. -/
def fixDuplicates (root : XElem) : XElem × Nat :=
  let ids := collectIds root
  if ids.idDups = [] then (root, 0)
  else
    let st0 : DupState :=
      { tree := root
        counter := parseIntJS ((root.getAttr "nextUniqueNameIndex").getD "0")
        changed := 0 }
    let st :=
      ids.idDups.foldl
        (fun s dupName =>
          (((ids.idUsed.lookup dupName).getD []).drop 1).foldl
            (renameStep dupName) s)
        st0
    let t :=
      if st.changed > 0 then
        st.tree.setAttr "nextUniqueNameIndex" (jsNumToString st.counter)
      else st.tree
    (t, st.changed)

/-- Removal of all descendant elements named `id` (the root element of
the component variant is never in `idUsed`, hence never removed). -/
def pruneDescNamed (id : String) (root : XElem) : XElem :=
  .mk root.tag root.attrs (XR.removeNamedF id root.children)

/-- `removeUnusedPrompts(root)`: recollect ids, keep the declared names
starting with `pr` that are never referenced, remove all their declaring
elements and count the removals. -/
def unusedPromptNames (root : XElem) : List String :=
  (((collectIds root).idUsed.map Prod.fst)).filter
    (fun pid =>
      jsStartsWith pid "pr" && !(collectIds root).idReferenced.contains pid)

def removeUnusedPrompts (root : XElem) : XElem × Nat :=
  let ids := collectIds root
  let unused := unusedPromptNames root
  if unused = [] then (root, 0)
  else
    let t := unused.foldl (fun t pid => pruneDescNamed pid t) root
    let removed :=
      unused.foldl (fun n pid => n + ((ids.idUsed.lookup pid).getD []).length) 0
    (t, removed)

structure FixResults where
  duplicates : Nat
  prompts : Nat
  hasDuplicates : Bool
  hasPrompts : Bool

/-- `fixXmlReport(xmlText)` (parse/serialize modelled as the identity on
trees): duplicate repair, then unused-prompt removal. -/
def fixXmlReport (root : XElem) : XElem × FixResults :=
  let (r1, duplicates) := fixDuplicates root
  let (r2, prompts) := removeUnusedPrompts r1
  (r2,
   { duplicates := duplicates, prompts := prompts,
     hasDuplicates := duplicates > 0, hasPrompts := prompts > 0 })

end P0

/-! ## Concrete documents used by the theorems -/

/-- `<Root><Property value="xy99"/></Root>`: one dangling reference. -/
def ncDoc : XElem :=
  .mk "Root" [] (.consE (.mk "Property" [("value", "xy99")] .nil) .nil)

/-- `<Root nextUniqueNameIndex="5"><A name="vi1"/><A name="vi1"/></Root>`:
a problematic duplicate and nothing else. -/
def dupDoc : XElem :=
  .mk "Root" [("nextUniqueNameIndex", "5")]
    (.consE (.mk "A" [("name", "vi1")] .nil)
      (.consE (.mk "A" [("name", "vi1")] .nil) .nil))

/-- `<Root name="a" nextUniqueNameIndex="5"><A name="vi1"/><A name="vi1"/></Root>`:
the concrete duplicate-repair scenario of the specification. -/
def scenDoc : XElem :=
  .mk "Root" [("name", "a"), ("nextUniqueNameIndex", "5")]
    (.consE (.mk "A" [("name", "vi1")] .nil)
      (.consE (.mk "A" [("name", "vi1")] .nil) .nil))

/-- `<Root nextUniqueNameIndex="0"><A name="vi1"/><A name="vi1"/><B name="vi9"/></Root>`:
a duplicate to rename next to a pre-existing large suffix for the same
identifier prefix. -/
def c4Doc : XElem :=
  .mk "Root" [("nextUniqueNameIndex", "0")]
    (.consE (.mk "A" [("name", "vi1")] .nil)
      (.consE (.mk "A" [("name", "vi1")] .nil)
        (.consE (.mk "B" [("name", "vi9")] .nil) .nil)))

/-- `<Root><Property>xy99</Property></Root>`: the dangling reference sits
in text content. -/
def tDoc : XElem :=
  .mk "Root" [] (.consE (.mk "Property" [] (.consT "xy99" .nil)) .nil)

/-- `<Root><P value="xy99"/><Q expr="abxy99cd  hello"/></Root>`: the `Q`
attribute contains the candidate only inside a longer token, plus a
double space. -/
def c10Doc : XElem :=
  .mk "Root" []
    (.consE (.mk "P" [("value", "xy99")] .nil)
      (.consE (.mk "Q" [("expr", "abxy99cd  hello")] .nil) .nil))

/-- `<Root><Prompt name="pr1"><Prompt name="pr2"/></Prompt><P value="pr2"/></Root>`:
the used prompt `pr2` is declared inside the unused prompt `pr1`. -/
def c8Doc : XElem :=
  .mk "Root" []
    (.consE
      (.mk "Prompt" [("name", "pr1")]
        (.consE (.mk "Prompt" [("name", "pr2")] .nil) .nil))
      (.consE (.mk "P" [("value", "pr2")] .nil) .nil))

/-- `<Root><Prompt name="pr100"/></Root>`: a single unreferenced prompt
and no other defect, so the first run exercises the unused-prompt
pass. -/
def prOnlyDoc : XElem :=
  .mk "Root" [] (.consE (.mk "Prompt" [("name", "pr100")] .nil) .nil)

/-! Declaring elements of `id` in the subtree of `e` (elements whose
`name` attribute equals `id`). -/
mutual
def declCountE (id : String) : XElem → Nat
  | .mk _ a cs =>
      (if getAttrL a "name" = some id then 1 else 0) + declCountF id cs
def declCountF (id : String) : XForest → Nat
  | .nil => 0
  | .consE e r => declCountE id e + declCountF id r
  | .consT _ r => declCountF id r
end

def declCountO (id : String) : Option XElem → Nat
  | none => 0
  | some e => declCountE id e

/-- The `name` attributes of the descendants of `root`, in document
order. -/
def descNames (root : XElem) : List String :=
  (listDesc root).filterMap (fun e => e.getAttr "name")

/-- The document produced by the null-candidate repair loop of
`repairXML` on input `d`. -/
def XR.loopDoc (d : XElem) : XElem :=
  (XR.nullLoop 10 d (XR.analyzeXML d)).1

/-- The last analysis held by the `analysis` variable when the
null-candidate repair loop of `repairXML` exits. -/
def XR.loopAnalysis (d : XElem) : XR.AnalysisX :=
  (XR.nullLoop 10 d (XR.analyzeXML d)).2.1

/-- The number of iterations (`nullCandidateLoopCount`) performed by the
null-candidate repair loop of `repairXML`. -/
def XR.loopCount (d : XElem) : Nat :=
  (XR.nullLoop 10 d (XR.analyzeXML d)).2.2

/-! Declaring elements of `id` in `t` that do not lie inside any element
whose `name` belongs to `S` (the subtrees the unused-prompt pass
removes). -/
mutual
def declOutsideE (S : List String) (id : String) : XElem → Nat
  | .mk _ a cs =>
      match getAttrL a "name" with
      | some n =>
          if n ∈ S then 0
          else (if n = id then 1 else 0) + declOutsideF S id cs
      | none => declOutsideF S id cs
def declOutsideF (S : List String) (id : String) : XForest → Nat
  | .nil => 0
  | .consE e r => declOutsideE S id e + declOutsideF S id r
  | .consT _ r => declOutsideF S id r
end

/-! Simultaneous pruning of every element declared with a name in `S`,
used to characterise the sequential removals of `repairUnusedPrompts`. -/
mutual
def pruneSetE (S : List String) (e : XElem) : Option XElem :=
  match e with
  | .mk t a cs =>
      match getAttrL a "name" with
      | some n => if n ∈ S then none else some (.mk t a (pruneSetF S cs))
      | none => some (.mk t a (pruneSetF S cs))
def pruneSetF (S : List String) : XForest → XForest
  | .nil => .nil
  | .consE (.mk t a cs) r =>
      match getAttrL a "name" with
      | some n =>
          if n ∈ S then pruneSetF S r
          else .consE (.mk t a (pruneSetF S cs)) (pruneSetF S r)
      | none => .consE (.mk t a (pruneSetF S cs)) (pruneSetF S r)
  | .consT s r => .consT s (pruneSetF S r)
end

/-- Adding a natural number to a JS number (`none` stays `NaN`). -/
def addK (o : Option Int) (k : Nat) : Option Int :=
  o.map (fun i => i + (k : Int))

/-! ## Concrete theorems -/

/-- C1 (counterexample): on a document whose only defect is a duplicate
name, the engine returns the document byte-for-byte unchanged with
`hasRepairs = false` while still counting the duplicate — so no
duplicate-repair pass runs first (or at all), refuting the claimed
three-pass order. -/
theorem C1_counterexample :
    (XR.repairXML dupDoc).file = some dupDoc ∧
    (XR.repairXML dupDoc).duplicates = 1 ∧
    (XR.repairXML dupDoc).hasRepairs = false :=
  ⟨rfl, rfl, rfl⟩

/-- C2 (divergence): the pre-repair analysis of `ncDoc` reports one null
candidate, but the engine's returned count is zero — `originalAnalysis`
is captured from the post-loop analysis, not the pre-repair one. -/
theorem C2_divergence :
    (XR.analyzeXML ncDoc).nullCandidates = 1 ∧
    (XR.repairXML ncDoc).nullCandidates = 0 :=
  ⟨rfl, rfl⟩

/-- C3 (divergence): on the specification's own scenario document
(counter `5`, two elements named `vi1`), the duplicate repair renames
BOTH elements to `vi5` — the reference-rewrite loop does not exclude
`name` attributes, so the first declaring element does not stay
untouched (and the document still contains a duplicate).  The reported
count (`1`) and the advanced counter (`6`) match the claim. -/
theorem C3_divergence :
    (P0.fixXmlReport scenDoc).2.duplicates = 1 ∧
    descNames (P0.fixXmlReport scenDoc).1 = ["vi5", "vi5"] ∧
    (P0.fixXmlReport scenDoc).1.getAttr "nextUniqueNameIndex" = some "6" :=
  ⟨rfl, rfl, rfl⟩

/-- C4 (counterexample): after renaming the duplicate `vi1` with counter
`0`, the root counter is `1`, yet the untouched element `vi9` keeps the
numeric suffix `9` for the affected prefix `vi` — the counter is not
strictly greater than every suffix in use. -/
theorem C4_counterexample :
    parseIntJS
        (((P0.fixDuplicates c4Doc).1.getAttr "nextUniqueNameIndex").getD "0")
      = some 1 ∧
    "vi9" ∈ descNames (P0.fixDuplicates c4Doc).1 ∧
    ¬ ((9 : Int) < 1) :=
  ⟨rfl, by decide, by decide⟩

/-- C7 (divergence): repairing the dangling text reference `xy99` in
`<Root><Property>xy99</Property></Root>` assigns `textContent` on the
root, which deletes the whole `Property` element — the pass does remove
elements, contradicting the claim (and the source's own comment). -/
theorem C7_divergence :
    XR.repairNullCandidates tDoc (XR.analyzeXML tDoc).nullCandidateIdList
      = .mk "Root" [] .nil ∧
    countE tDoc = 2 :=
  ⟨rfl, rfl⟩

/-- C8 (counterexample): `pr2` is referenced (hence not in the unused
set) but its declaring element sits inside the unused prompt `pr1`;
removing `pr1`'s subtree also removes `pr2`'s declaration, so an
identifier outside the unused set loses its declaring element. -/
theorem C8_counterexample :
    XR.unusedPrompts c8Doc = ["pr1"] ∧
    "pr2" ∉ XR.unusedPrompts c8Doc ∧
    declCountE "pr2" c8Doc = 1 ∧
    declCountO "pr2" (XR.repairUnusedPrompts c8Doc) = 0 :=
  ⟨rfl, by decide, rfl, rfl⟩

/-- C9 (counterexample): running the engine on its own output for
`dupDoc` still reports one duplicate — the second run does not report
zero defects of all three classes, because duplicates are never
repaired. -/
theorem C9_counterexample :
    (XR.repairXML ((XR.repairXML dupDoc).file.getD dupDoc)).duplicates = 1 ∧
    (XR.repairXML ((XR.repairXML dupDoc).file.getD dupDoc)).hasDuplicates
      = true :=
  ⟨rfl, rfl⟩

/-- C10: an attribute whose value contains a null candidate only inside
the longer token `abxy99cd` is still selected by the raw substring test
and rewritten: no boundary-delimited occurrence exists to remove, yet
the cleanup collapses its internal double space, leaving
`"abxy99cd hello"`. -/
theorem C10_unrelated_rewrite :
    (XR.analyzeXML c10Doc).nullCandidateIdList = ["xy99"] ∧
    XR.repairNullCandidates c10Doc (XR.analyzeXML c10Doc).nullCandidateIdList
      = .mk "Root" []
          (.consE (.mk "P" [] .nil)
            (.consE (.mk "Q" [("expr", "abxy99cd hello")] .nil) .nil)) :=
  ⟨rfl, rfl⟩

/-! ## The null-candidate repair loop -/

/-- The loop body is skipped (for any remaining fuel) once the analysis
reports no null candidates. -/
theorem nullLoop_done (fuel : Nat) (d : XElem) (a : XR.AnalysisX)
    (h : a.nullCandidates = 0) : XR.nullLoop fuel d a = (d, a, 0) := by
  cases fuel with
  | zero => rfl
  | succ f => simp [XR.nullLoop, h]

/-- Loop invariant of the null-candidate repair loop: provided the
incoming analysis is the analysis of the incoming document, the final
analysis is the analysis of the final document, the iteration count is
bounded by the fuel, and the loop only stops early with an empty
candidate set. -/
theorem nullLoop_spec (fuel : Nat) :
    ∀ (d : XElem) (a : XR.AnalysisX), a = XR.analyzeXML d →
      (XR.nullLoop fuel d a).2.1 = XR.analyzeXML (XR.nullLoop fuel d a).1 ∧
      (XR.nullLoop fuel d a).2.2 ≤ fuel ∧
      ((XR.nullLoop fuel d a).2.1.nullCandidates = 0 ∨
        (XR.nullLoop fuel d a).2.2 = fuel) := by
  induction fuel with
  | zero => intro d a ha; exact ⟨ha ▸ rfl, le_refl 0, Or.inr rfl⟩
  | succ f ih =>
      intro d a ha
      by_cases h : a.nullCandidates > 0
      · have hrec :=
          ih (XR.repairNullCandidates d a.nullCandidateIdList)
            (XR.analyzeXML (XR.repairNullCandidates d a.nullCandidateIdList))
            rfl
        simp only [XR.nullLoop, if_pos h]
        exact ⟨hrec.1, by omega, by rcases hrec.2.2 with h1 | h1
                                    · exact Or.inl h1
                                    · exact Or.inr (by omega)⟩
      · have h0 : a.nullCandidates = 0 := Nat.eq_zero_of_not_pos h
        simp only [XR.nullLoop, if_neg h]
        exact ⟨ha ▸ rfl, Nat.zero_le _, Or.inl h0⟩

/-- C6: the null-candidate repair loop always terminates within the
10-iteration cap, stops early only when the recomputed candidate set is
empty, consumes a freshly recomputed analysis, and even on a cap hit the
engine still assembles its result from that final analysis. -/
theorem C6_loop_bound (d : XElem) :
    XR.loopCount d ≤ 10 ∧
    ((XR.loopAnalysis d).nullCandidates = 0 ∨ XR.loopCount d = 10) ∧
    XR.loopAnalysis d = XR.analyzeXML (XR.loopDoc d) ∧
    (XR.repairXML d).nullCandidates = (XR.loopAnalysis d).nullCandidates := by
  have h := nullLoop_spec 10 d (XR.analyzeXML d) rfl
  refine ⟨h.2.1, h.2.2, h.1, ?_⟩
  show (XR.nullLoop 10 d (XR.analyzeXML d)).2.1.nullCandidateIdList.length
      = (XR.loopAnalysis d).nullCandidates
  rw [show XR.loopAnalysis d = XR.analyzeXML (XR.loopDoc d) from h.1]
  rw [show (XR.nullLoop 10 d (XR.analyzeXML d)).2.1
      = XR.analyzeXML (XR.loopDoc d) from h.1]
  rfl

/-- Projection of `repairXML` exposing the pass order: the file returned
is the loop output, prompt-repaired exactly when the post-loop analysis
still reports prompts. -/
theorem repairXML_file (x : XElem) :
    (XR.repairXML x).file =
      if (XR.loopAnalysis x).prompts > 0 then
        XR.repairUnusedPrompts (XR.loopDoc x)
      else some (XR.loopDoc x) := rfl

/-- `hasRepairs` is set by a loop iteration or by the prompt pass. -/
theorem repairXML_hasRepairs (x : XElem) :
    (XR.repairXML x).hasRepairs =
      (XR.loopCount x > 0 || (XR.loopAnalysis x).prompts > 0) := rfl

/-- The reported null-candidate count is the size of the post-loop
analysis' candidate set. -/
theorem repairXML_ncCount (x : XElem) :
    (XR.repairXML x).nullCandidates =
      (XR.loopAnalysis x).nullCandidateIdList.length := rfl

/-- The reported prompt count is the post-loop analysis' prompt count. -/
theorem repairXML_promptCount (x : XElem) :
    (XR.repairXML x).prompts = (XR.loopAnalysis x).prompts := rfl

/-- A document whose analysis has no null candidates passes through the
loop untouched. -/
theorem loopDoc_of_done (x : XElem)
    (h : (XR.analyzeXML x).nullCandidates = 0) : XR.loopDoc x = x := by
  show (XR.nullLoop 10 x (XR.analyzeXML x)).1 = x
  rw [nullLoop_done 10 x (XR.analyzeXML x) h]

/-- With no null candidates, the post-loop analysis is the input
analysis. -/
theorem loopAnalysis_of_done (x : XElem)
    (h : (XR.analyzeXML x).nullCandidates = 0) :
    XR.loopAnalysis x = XR.analyzeXML x := by
  show (XR.nullLoop 10 x (XR.analyzeXML x)).2.1 = XR.analyzeXML x
  rw [nullLoop_done 10 x (XR.analyzeXML x) h]

/-- With no null candidates, the loop performs zero iterations. -/
theorem loopCount_of_done (x : XElem)
    (h : (XR.analyzeXML x).nullCandidates = 0) : XR.loopCount x = 0 := by
  show (XR.nullLoop 10 x (XR.analyzeXML x)).2.2 = 0
  rw [nullLoop_done 10 x (XR.analyzeXML x) h]

/-- C1 (amended): the client-side engine applies exactly two repair
passes in fixed order — iterated null-candidate repair, then
unused-prompt repair — each from a freshly recomputed analysis; when
both report nothing it returns the document unchanged even if
duplicates are present, since no duplicate-repair pass exists.  The
component variant applies duplicate repair and then unused-prompt
removal, with ids recollected before each pass, and has no
null-candidate pass: with no duplicate names and no unused prompts it
returns the document unchanged even if dangling references are
present. -/
theorem C1_amended :
    (∀ d : XElem, (XR.analyzeXML d).nullCandidates = 0 →
      (XR.analyzeXML d).prompts = 0 →
      (XR.repairXML d).file = some d ∧ (XR.repairXML d).hasRepairs = false) ∧
    (∀ d : XElem, (P0.collectIds d).idDups = [] →
      P0.unusedPromptNames d = [] →
      (P0.fixXmlReport d).1 = d ∧ (P0.fixXmlReport d).2.duplicates = 0 ∧
        (P0.fixXmlReport d).2.prompts = 0) := by
  constructor
  · intro d h1 h2
    constructor
    · rw [repairXML_file, loopAnalysis_of_done d h1, loopDoc_of_done d h1]
      simp [h2]
    · rw [repairXML_hasRepairs, loopAnalysis_of_done d h1,
        loopCount_of_done d h1]
      simp [h2]
  · intro d h1 h2
    have hd : P0.fixDuplicates d = (d, 0) := by
      simp [P0.fixDuplicates, h1]
    have hp : P0.removeUnusedPrompts d = (d, 0) := by
      simp [P0.removeUnusedPrompts, h2]
    simp [P0.fixXmlReport, hd, hp]

/-- C1 (witness): the amended behaviour at concrete inputs.  On
`dupDoc` (a duplicate, no null candidates, no prompts) the client-side
engine is the identity; on `ncDoc` (a null candidate, no duplicates, no
prompts) the component variant is the identity. -/
theorem C1_witness :
    (XR.repairXML dupDoc).file = some dupDoc ∧
    (P0.fixXmlReport ncDoc).1 = ncDoc :=
  ⟨(C1_amended.1 dupDoc rfl rfl).1, (C1_amended.2 ncDoc rfl rfl).1⟩

/-- C9 (amended): running the pipeline a second time on the document the
first run produced makes zero further changes (`hasRepairs = false`,
same document) and reports zero null candidates and zero unused
prompts, whenever that repaired document's analysis shows zero null
candidates and zero unused prompts — the formalisation of "without
pathological reference chains": a pathological input is exactly one
whose repairs leave or create a repairable defect (e.g. the removal of
an unused prompt subtree deleting the only declaration or reference of
another identifier).  Duplicates are exempt: the engine never repairs
them (see the counterexample). -/
theorem C9_amended (d f : XElem)
    (_hrun : (XR.repairXML d).file = some f)
    (h1 : (XR.analyzeXML f).nullCandidates = 0)
    (h2 : (XR.analyzeXML f).prompts = 0) :
    (XR.repairXML f).file = some f ∧
    (XR.repairXML f).hasRepairs = false ∧
    (XR.repairXML f).nullCandidates = 0 ∧
    (XR.repairXML f).prompts = 0 := by
  have hla : XR.loopAnalysis f = XR.analyzeXML f := loopAnalysis_of_done f h1
  refine ⟨?_, ?_, ?_, ?_⟩
  · rw [repairXML_file, hla, loopDoc_of_done f h1]
    simp [h2]
  · rw [repairXML_hasRepairs, hla, loopCount_of_done f h1]
    simp [h2]
  · rw [repairXML_ncCount, hla]
    exact h1
  · rw [repairXML_promptCount, hla]
    exact h2

/-- C9 (witness): the amended idempotence at `prOnlyDoc`, an input whose
first run exercises the unused-prompt pass: the first run removes the
lone unreferenced prompt (a repair was performed), and running the
engine on its output makes no further change and reports no null
candidates and no unused prompts. -/
theorem C9_witness :
    (XR.repairXML prOnlyDoc).file = some (XElem.mk "Root" [] .nil) ∧
    (XR.repairXML prOnlyDoc).hasRepairs = true ∧
    (XR.repairXML (XElem.mk "Root" [] .nil)).file
      = some (XElem.mk "Root" [] .nil) ∧
    (XR.repairXML (XElem.mk "Root" [] .nil)).hasRepairs = false ∧
    (XR.repairXML (XElem.mk "Root" [] .nil)).nullCandidates = 0 ∧
    (XR.repairXML (XElem.mk "Root" [] .nil)).prompts = 0 := by
  have h := C9_amended prOnlyDoc (XElem.mk "Root" [] .nil) rfl rfl rfl
  exact ⟨rfl, rfl, h.1, h.2.1, h.2.2.1, h.2.2.2⟩

/-! ## The identifier classifier and the null-candidate set (C5) -/

theorem mem_slInsert {acc : List String} {y x : String}
    (h : x ∈ slInsert acc y) : x ∈ acc ∨ x = y := by
  by_cases hy : y ∈ acc
  · exact Or.inl (by simpa [slInsert, hy] using h)
  · simpa [slInsert, hy] using h

/-- Folding a step function that preserves a property of all members
preserves it over the whole list. -/
theorem foldl_preserve {α β : Type} (P : β → Prop) (step : List β → α → List β)
    (hstep : ∀ acc a, (∀ x ∈ acc, P x) → ∀ x ∈ step acc a, P x) :
    ∀ (l : List α) (acc : List β), (∀ x ∈ acc, P x) →
      ∀ x ∈ l.foldl step acc, P x := by
  intro l
  induction l with
  | nil => intro acc h x hx; exact h x hx
  | cons a l ih => intro acc h x hx; exact ih (step acc a) (hstep acc a h) x hx

/-- Every match produced by the text scanner has the identifier shape:
two lowercase letters followed by at least one digit. -/
theorem scanIdsAux_shape (fuel : Nat) :
    ∀ (prev : Option Char) (l : List Char) (m : String),
      m ∈ XR.scanIdsAux fuel prev l → isIdShape m = true := by
  induction fuel with
  | zero => intro _ _ _ h; simp [XR.scanIdsAux] at h
  | succ f ih =>
      intro prev l m hm
      match l with
      | [] => simp [XR.scanIdsAux] at hm
      | [c] => simp [XR.scanIdsAux] at hm
      | c1 :: c2 :: rest2 =>
          simp only [XR.scanIdsAux] at hm
          by_cases h12 : isLowerJS c1 && isLowerJS c2
          · rw [if_pos h12] at hm
            match rest2 with
            | [] => simp at hm
            | c3 :: rest3 =>
                dsimp only at hm
                by_cases hd : isDigitJS c3
                · rw [if_pos hd] at hm
                  split at hm
                  · rcases List.mem_cons.1 hm with h1 | h1
                    · subst h1
                      simp only [Bool.and_eq_true] at h12
                      simp [isIdShape, h12.1, h12.2, hd, List.all_eq_true,
                        fun x hx => List.mem_takeWhile_imp hx]
                    · exact ih _ _ m h1
                  · exact ih _ _ m hm
                · rw [if_neg hd] at hm
                  exact ih _ _ m hm
          · rw [if_neg h12] at hm
            exact ih _ _ m hm

theorem scanIds_shape (s : String) (m : String) (hm : m ∈ XR.scanIds s) :
    isIdShape m = true :=
  scanIdsAux_shape s.data.length none s.data m hm

/-- Folding `slInsert` over a list of elements that all satisfy `P`
preserves `P` for all members of the accumulator. -/
theorem foldl_slInsert_mem {P : String → Prop} :
    ∀ (l : List String) (acc : List String), (∀ x ∈ acc, P x) →
      (∀ x ∈ l, P x) → ∀ x ∈ l.foldl slInsert acc, P x := by
  intro l
  induction l with
  | nil => intro acc h _ x hx; exact h x hx
  | cons a l ih =>
      intro acc h hl x hx
      refine ih (slInsert acc a) ?_ (fun y hy => hl y (List.mem_cons_of_mem a hy)) x hx
      intro y hy
      rcases mem_slInsert hy with h1 | h1
      · exact h y h1
      · exact h1 ▸ hl a (List.mem_cons_self a l)


/-- Every member of the referenced-identifier set has the identifier
shape. -/
theorem referencedIds_shape (root : XElem) :
    ∀ x ∈ XR.referencedIds root, isIdShape x = true := by
  refine foldl_preserve (fun x => isIdShape x = true) XR.refStep
    ?_ (listE root) [] (by intro x hx; simp at hx)
  intro acc e h x hx
  unfold XR.refStep at hx
  have hattr : ∀ x ∈ e.attrs.foldl
      (fun a attr =>
        if attr.1 ≠ "name" then
          (splitWsJS attr.2).foldl
            (fun a2 w => if isIdShape w then slInsert a2 w else a2) a
        else a)
      acc, isIdShape x = true := by
    refine foldl_preserve (fun x => isIdShape x = true) _ ?_ e.attrs acc h
    intro acc2 attr h2 x hx2
    by_cases hn : attr.1 ≠ "name"
    · rw [if_pos hn] at hx2
      refine foldl_preserve (fun x => isIdShape x = true) _ ?_
        (splitWsJS attr.2) acc2 h2 x hx2
      intro acc3 w h3 y hy
      by_cases hw : isIdShape w
      · rw [if_pos hw] at hy
        rcases mem_slInsert hy with h4 | h4
        · exact h3 y h4
        · exact h4 ▸ hw
      · rw [if_neg hw] at hy
        exact h3 y hy
    · rw [if_neg hn] at hx2
      exact h2 x hx2
  by_cases ht : textContentE e ≠ "" && trimJS (textContentE e) ≠ ""
  · rw [if_pos ht] at hx
    refine foldl_slInsert_mem (XR.scanIds (trimJS (textContentE e))) _ hattr
      (fun w hw => scanIds_shape _ w hw) x hx
  · rw [if_neg ht] at hx
    exact hattr x hx

theorem lower_not_upper (c : Char) (h : isLowerJS c = true) :
    isUpperJS c = false := by
  simp only [isLowerJS, Bool.and_eq_true, decide_eq_true_eq] at h
  simp only [isUpperJS, Bool.and_eq_false_iff, decide_eq_false_iff_not]
  right
  intro h2
  exact absurd (le_trans h.1 h2) (by decide)

theorem digit_not_upper (c : Char) (h : isDigitJS c = true) :
    isUpperJS c = false := by
  simp only [isDigitJS, Bool.and_eq_true, decide_eq_true_eq] at h
  simp only [isUpperJS, Bool.and_eq_false_iff, decide_eq_false_iff_not]
  left
  intro h2
  exact absurd (le_trans h2 h.2) (by decide)

theorem toLowerCharJS_of_lower (c : Char) (h : isLowerJS c = true) :
    toLowerCharJS c = c := by
  simp [toLowerCharJS, lower_not_upper c h]

theorem toLowerCharJS_of_digit (c : Char) (h : isDigitJS c = true) :
    toLowerCharJS c = c := by
  simp [toLowerCharJS, digit_not_upper c h]

/-- A list of digit characters is fixed by `toLowerCase`. -/
theorem map_toLower_digits :
    ∀ (l : List Char), (∀ x ∈ l, isDigitJS x = true) →
      l.map toLowerCharJS = l := by
  intro l
  induction l with
  | nil => intro _; rfl
  | cons a t iht =>
      intro hall
      simp only [List.map_cons]
      rw [toLowerCharJS_of_digit a (hall a (List.mem_cons_self a t)),
        iht (fun x hx => hall x (List.mem_cons_of_mem a hx))]

/-- Identifier-shaped strings are all-lowercase-and-digits, so
`toLowerCase` fixes them. -/
theorem toLowerJS_of_shape (s : String) (h : isIdShape s = true) :
    toLowerJS s = s := by
  rcases s with ⟨data⟩
  match data with
  | [] => simp [isIdShape] at h
  | [_] => simp [isIdShape] at h
  | c1 :: c2 :: rest =>
      simp only [isIdShape, Bool.and_eq_true] at h
      obtain ⟨⟨⟨hl1, hl2⟩, _⟩, hall0⟩ := h
      have hall : ∀ x ∈ rest, isDigitJS x = true := by
        simpa [List.all_eq_true] using hall0
      show String.mk ((c1 :: c2 :: rest).map toLowerCharJS) = String.mk _
      simp only [List.map_cons]
      rw [toLowerCharJS_of_lower c1 hl1, toLowerCharJS_of_lower c2 hl2,
        map_toLower_digits rest hall]

/-- Identifier-shaped strings have at least three characters. -/
theorem length_of_shape (s : String) (h : isIdShape s = true) :
    3 ≤ s.length := by
  rcases s with ⟨data⟩
  match data with
  | [] => simp [isIdShape] at h
  | [_] => simp [isIdShape] at h
  | c1 :: c2 :: rest =>
      simp only [isIdShape, Bool.and_eq_true] at h
      obtain ⟨⟨⟨_, _⟩, hne⟩, _⟩ := h
      have : rest ≠ [] := by simpa using hne
      match rest, this with
      | r :: rs, _ =>
          show 3 ≤ (c1 :: c2 :: r :: rs).length
          simp [List.length_cons]

/-- C5: the analysis' null-candidate set is exactly the
referenced-minus-defined set after the false-positive filter, and no
member is a 6-hex-digit colour code, shorter than 3 characters, or
(case-insensitively) a member of the fixed exclusion list. -/
theorem C5_classifier :
    (∀ d : XElem, (XR.analyzeXML d).nullCandidateIdList =
      ((XR.referencedIds d).filter
        (fun i => !(XR.definedIds d).contains i)).filter XR.ncKeep) ∧
    ∀ (d : XElem) (s : String),
      s ∈ (XR.analyzeXML d).nullCandidateIdList →
      s ∈ XR.referencedIds d ∧
      isHex6 s = false ∧ 3 ≤ s.length ∧
      toLowerJS s ∉ ["label", "title", "name", "id", "bi1"] := by
  refine ⟨fun d => rfl, ?_⟩
  intro d s hs
  have hs2 : s ∈ (XR.referencedIds d).filter
      (fun i => !(XR.definedIds d).contains i) ∧ XR.ncKeep s = true :=
    List.mem_filter.1 hs
  have hsref : s ∈ XR.referencedIds d := (List.mem_filter.1 hs2.1).1
  have hshape : isIdShape s = true := referencedIds_shape d s hsref
  have hkeep := hs2.2
  simp only [XR.ncKeep, Bool.and_eq_true, Bool.not_eq_true',
    List.contains_cons, List.contains_nil, Bool.or_eq_false_iff,
    decide_eq_true_eq, beq_eq_false_iff_ne, ne_eq] at hkeep
  refine ⟨hsref, hkeep.1.1, length_of_shape s hshape, ?_⟩
  intro hmem
  simp only [List.mem_cons, List.not_mem_nil, or_false] at hmem
  have hne4 := hkeep.1.2
  rcases hmem with h1 | h1 | h1 | h1 | h1
  · exact hne4.1 h1
  · exact hne4.2.1 h1
  · exact hne4.2.2.1 h1
  · exact hne4.2.2.2.1 h1
  · exact hkeep.2 ((toLowerJS_of_shape s hshape).symm.trans h1)

/-- C5 (witness): `xy99` is reported on `ncDoc` and satisfies every
stability property of the classifier. -/
theorem C5_witness :
    "xy99" ∈ (XR.analyzeXML ncDoc).nullCandidateIdList ∧
    isHex6 "xy99" = false ∧ 3 ≤ "xy99".length ∧
    toLowerJS "xy99" ∉ ["label", "title", "name", "id", "bi1"] := by
  have h := C5_classifier.2 ncDoc "xy99" (by decide)
  exact ⟨by decide, h.2.1, h.2.2.1, h.2.2.2⟩

/-! ## The duplicate-rename counter (C4) -/

theorem addK_addK (o : Option Int) (k1 k2 : Nat) :
    addK (addK o k1) k2 = addK o (k1 + k2) := by
  cases o with
  | none => rfl
  | some i => simp [addK]; ring

theorem addK_zero (o : Option Int) : addK o 0 = o := by
  cases o with
  | none => rfl
  | some i => simp [addK]

/-- Each rename step advances the counter and the change count in
lockstep (by one, or by zero with the tree untouched when the name has
no lowercase prefix run). -/
theorem renameStep_inv (n : String) (st : P0.DupState) (p : List Nat) :
    ∃ k : Nat, (P0.renameStep n st p).counter = addK st.counter k ∧
      (P0.renameStep n st p).changed = st.changed + k ∧
      (k = 0 → (P0.renameStep n st p).tree = st.tree) := by
  by_cases h : P0.lowerRun n = ""
  · exact ⟨0, by simp [P0.renameStep, h, addK_zero], by simp [P0.renameStep, h],
      fun _ => by simp [P0.renameStep, h]⟩
  · refine ⟨1, ?_, by simp [P0.renameStep, h], by omega⟩
    show (P0.renameStep n st p).counter = addK st.counter 1
    cases hct : st.counter with
    | none => simp [P0.renameStep, h, jsNumAdd1, hct, addK]
    | some i => simp [P0.renameStep, h, jsNumAdd1, hct, addK]

/-- Folding steps that satisfy the lockstep invariant preserves it. -/
theorem foldl_dupInv {α : Type} (f : P0.DupState → α → P0.DupState)
    (hf : ∀ st a, ∃ k : Nat, (f st a).counter = addK st.counter k ∧
      (f st a).changed = st.changed + k ∧ (k = 0 → (f st a).tree = st.tree)) :
    ∀ (l : List α) (st : P0.DupState),
      ∃ k : Nat, (l.foldl f st).counter = addK st.counter k ∧
        (l.foldl f st).changed = st.changed + k ∧
        (k = 0 → (l.foldl f st).tree = st.tree) := by
  intro l
  induction l with
  | nil => intro st; exact ⟨0, by simp [addK_zero], by simp, fun _ => rfl⟩
  | cons a t ih =>
      intro st
      obtain ⟨k1, h1, h2, h3⟩ := hf st a
      obtain ⟨k2, g1, g2, g3⟩ := ih (f st a)
      refine ⟨k1 + k2, ?_, ?_, ?_⟩
      · show (t.foldl f (f st a)).counter = addK st.counter (k1 + k2)
        rw [g1, h1, addK_addK]
      · show (t.foldl f (f st a)).changed = st.changed + (k1 + k2)
        rw [g2, h2]; omega
      · intro hk
        show (t.foldl f (f st a)).tree = st.tree
        rw [g3 (by omega), h3 (by omega)]

theorem getAttrL_setAttrL (attrs : List (String × String)) (n v : String) :
    getAttrL (setAttrL attrs n v) n = some v := by
  induction attrs with
  | nil => simp [setAttrL, getAttrL]
  | cons a t ih =>
      rcases a with ⟨an, av⟩
      by_cases h : an = n
      · simp [setAttrL, getAttrL, h]
      · simp [setAttrL, getAttrL, h, ih]

/-- C4 (amended): after a duplicate-renaming pass the root counter
equals its initial value plus the number of renames performed — hence it
is monotonically non-decreasing and strictly greater than every suffix
minted during the pass — but it does not in general dominate suffixes
already in use for the affected prefixes (see the counterexample). -/
theorem getAttr_setAttr (e : XElem) (n v : String) :
    (e.setAttr n v).getAttr n = some v := by
  show getAttrL (setAttrL e.attrs n v) n = some v
  exact getAttrL_setAttrL e.attrs n v

theorem C4_amended (d : XElem) (c : Int)
    (hc : parseIntJS ((d.getAttr "nextUniqueNameIndex").getD "0") = some c) :
    (P0.fixDuplicates d).1.getAttr "nextUniqueNameIndex" =
      (if (P0.fixDuplicates d).2 = 0 then d.getAttr "nextUniqueNameIndex"
       else some (toString (c + ((P0.fixDuplicates d).2 : Int)))) ∧
    c ≤ c + ((P0.fixDuplicates d).2 : Int) := by
  constructor
  · by_cases hdup : (P0.collectIds d).idDups = []
    · have : P0.fixDuplicates d = (d, 0) := by simp [P0.fixDuplicates, hdup]
      rw [this]; simp
    · have hinv := foldl_dupInv _
        (fun st n =>
          foldl_dupInv (P0.renameStep n) (renameStep_inv n)
            ((((P0.collectIds d).idUsed.lookup n).getD []).drop 1) st)
        (P0.collectIds d).idDups
        { tree := d
          counter := parseIntJS ((d.getAttr "nextUniqueNameIndex").getD "0")
          changed := 0 }
      obtain ⟨k, h1, h2, h3⟩ := hinv
      simp only [hc, List.drop_one, Nat.zero_add] at h1 h2 h3
      have hfd1 : (P0.fixDuplicates d).1 =
          (if ((P0.collectIds d).idDups.foldl
              (fun s n =>
                ((((P0.collectIds d).idUsed.lookup n).getD []).tail).foldl
                  (P0.renameStep n) s)
              { tree := d, counter := some c, changed := 0 }).changed > 0 then
            ((P0.collectIds d).idDups.foldl
              (fun s n =>
                ((((P0.collectIds d).idUsed.lookup n).getD []).tail).foldl
                  (P0.renameStep n) s)
              { tree := d, counter := some c, changed := 0 }).tree.setAttr
              "nextUniqueNameIndex"
              (jsNumToString
                ((P0.collectIds d).idDups.foldl
                  (fun s n =>
                    ((((P0.collectIds d).idUsed.lookup n).getD []).tail).foldl
                      (P0.renameStep n) s)
                  { tree := d, counter := some c, changed := 0 }).counter)
          else
            ((P0.collectIds d).idDups.foldl
              (fun s n =>
                ((((P0.collectIds d).idUsed.lookup n).getD []).tail).foldl
                  (P0.renameStep n) s)
              { tree := d, counter := some c, changed := 0 }).tree) := by
        simp only [P0.fixDuplicates]
        rw [if_neg hdup]
        simp only [List.drop_one, hc]
      have hfd2 : (P0.fixDuplicates d).2 =
          ((P0.collectIds d).idDups.foldl
            (fun s n =>
              ((((P0.collectIds d).idUsed.lookup n).getD []).tail).foldl
                (P0.renameStep n) s)
            { tree := d, counter := some c, changed := 0 }).changed := by
        simp only [P0.fixDuplicates]
        rw [if_neg hdup]
        simp only [List.drop_one, hc]
      rw [hfd1, hfd2, h2, h1]
      rcases Nat.eq_zero_or_pos k with hk | hk
      · subst hk
        simp [h3 rfl]
      · rw [if_pos (by omega), if_neg (by omega), getAttr_setAttr]
        simp [addK, jsNumToString]
  · have : (0 : Int) ≤ ((P0.fixDuplicates d).2 : Int) := Int.natCast_nonneg _
    omega

/-- C4 (witness): the amended counter law at the specification's own
scenario document: one rename advances the counter from `5` to `6`. -/
theorem C4_witness :
    parseIntJS ((scenDoc.getAttr "nextUniqueNameIndex").getD "0") = some 5 ∧
    (P0.fixDuplicates scenDoc).1.getAttr "nextUniqueNameIndex" = some "6" ∧
    (5 : Int) ≤ 5 + ((P0.fixDuplicates scenDoc).2 : Int) := by
  have h := C4_amended scenDoc 5 (by decide)
  have h2 : (P0.fixDuplicates scenDoc).2 = 1 := rfl
  refine ⟨by decide, ?_, h.2⟩
  rw [h.1, h2]
  norm_num
  rfl

/-! ## Unused-prompt removal (C8) -/

mutual
theorem pruneSetE_nil : ∀ (e : XElem), pruneSetE [] e = some e
  | .mk t a cs => by
      cases h : getAttrL a "name" with
      | none => simp [pruneSetE, h, pruneSetF_nil cs]
      | some n => simp [pruneSetE, h, pruneSetF_nil cs]
theorem pruneSetF_nil : ∀ (cs : XForest), pruneSetF [] cs = cs
  | .nil => rfl
  | .consE (.mk t a cs) r => by
      cases h : getAttrL a "name" with
      | none => simp [pruneSetF, h, pruneSetF_nil cs, pruneSetF_nil r]
      | some n => simp [pruneSetF, h, pruneSetF_nil cs, pruneSetF_nil r]
  | .consT s r => by simp [pruneSetF, pruneSetF_nil r]
end

/-! Removing all elements declared `j` from an already-pruned document
prunes the enlarged set: the sequential removals of
`repairUnusedPrompts` accumulate into one simultaneous prune. -/
mutual
theorem removeNamedO_pruneSetE (j : String) (S : List String) :
    ∀ (e : XElem),
      XR.removeNamedO j (pruneSetE S e) = pruneSetE (S ++ [j]) e
  | .mk t a cs => by
      cases h : getAttrL a "name" with
      | none =>
          simp [pruneSetE, h, XR.removeNamedO, XR.removeNamedE,
            removeNamedF_pruneSetF j S cs]
      | some n =>
          by_cases hS : n ∈ S
          · simp [pruneSetE, h, hS, XR.removeNamedO, List.mem_append]
          · by_cases hj : n = j
            · subst hj
              simp [pruneSetE, h, hS, XR.removeNamedO, XR.removeNamedE,
                List.mem_append]
            · simp [pruneSetE, h, hS, hj, XR.removeNamedO, XR.removeNamedE,
                List.mem_append, removeNamedF_pruneSetF j S cs]
theorem removeNamedF_pruneSetF (j : String) (S : List String) :
    ∀ (cs : XForest),
      XR.removeNamedF j (pruneSetF S cs) = pruneSetF (S ++ [j]) cs
  | .nil => rfl
  | .consE (.mk t a cs) r => by
      cases h : getAttrL a "name" with
      | none =>
          simp [pruneSetF, h, XR.removeNamedF, removeNamedF_pruneSetF j S cs,
            removeNamedF_pruneSetF j S r]
      | some n =>
          by_cases hS : n ∈ S
          · simp [pruneSetF, h, hS, List.mem_append,
              removeNamedF_pruneSetF j S r]
          · by_cases hj : n = j
            · subst hj
              simp [pruneSetF, h, hS, XR.removeNamedF, List.mem_append,
                removeNamedF_pruneSetF n S r]
            · simp [pruneSetF, h, hS, hj, XR.removeNamedF, List.mem_append,
                removeNamedF_pruneSetF j S cs, removeNamedF_pruneSetF j S r]
  | .consT s r => by
      simp [pruneSetF, XR.removeNamedF, removeNamedF_pruneSetF j S r]
end

/-! A pruned document has no declaring element for any pruned name. -/
mutual
theorem declCount_pruneSetE_mem (id : String) (S : List String)
    (hid : id ∈ S) :
    ∀ (e : XElem), declCountO id (pruneSetE S e) = 0
  | .mk t a cs => by
      cases h : getAttrL a "name" with
      | none =>
          simp [pruneSetE, h, declCountO, declCountE,
            declCount_pruneSetF_mem id S hid cs]
      | some n =>
          by_cases hS : n ∈ S
          · simp [pruneSetE, h, hS, declCountO]
          · have hne : n ≠ id := fun he => hS (he ▸ hid)
            simp [pruneSetE, h, hS, declCountO, declCountE, hne,
              declCount_pruneSetF_mem id S hid cs]
theorem declCount_pruneSetF_mem (id : String) (S : List String)
    (hid : id ∈ S) :
    ∀ (cs : XForest), declCountF id (pruneSetF S cs) = 0
  | .nil => rfl
  | .consE (.mk t a cs) r => by
      cases h : getAttrL a "name" with
      | none =>
          simp [pruneSetF, h, declCountF, declCountE,
            declCount_pruneSetF_mem id S hid cs,
            declCount_pruneSetF_mem id S hid r]
      | some n =>
          by_cases hS : n ∈ S
          · simp [pruneSetF, h, hS, declCount_pruneSetF_mem id S hid r]
          · have hne : n ≠ id := fun he => hS (he ▸ hid)
            simp [pruneSetF, h, hS, declCountF, declCountE, hne,
              declCount_pruneSetF_mem id S hid cs,
              declCount_pruneSetF_mem id S hid r]
  | .consT s r => by
      simp [pruneSetF, declCountF, declCount_pruneSetF_mem id S hid r]
end

/-! Declarations of a name outside the pruned set survive exactly when
they are not inside a pruned subtree. -/
mutual
theorem declCount_pruneSetE_notmem (id : String) (S : List String)
    (hid : id ∉ S) :
    ∀ (e : XElem), declCountO id (pruneSetE S e) = declOutsideE S id e
  | .mk t a cs => by
      cases h : getAttrL a "name" with
      | none =>
          simp [pruneSetE, h, declCountO, declCountE, declOutsideE,
            declCount_pruneSetF_notmem id S hid cs]
      | some n =>
          by_cases hS : n ∈ S
          · simp [pruneSetE, h, hS, declCountO, declOutsideE]
          · simp [pruneSetE, h, hS, declCountO, declCountE, declOutsideE,
              declCount_pruneSetF_notmem id S hid cs]
theorem declCount_pruneSetF_notmem (id : String) (S : List String)
    (hid : id ∉ S) :
    ∀ (cs : XForest), declCountF id (pruneSetF S cs) = declOutsideF S id cs
  | .nil => rfl
  | .consE (.mk t a cs) r => by
      cases h : getAttrL a "name" with
      | none =>
          simp [pruneSetF, h, declCountF, declCountE, declOutsideF,
            declOutsideE, declCount_pruneSetF_notmem id S hid cs,
            declCount_pruneSetF_notmem id S hid r]
      | some n =>
          by_cases hS : n ∈ S
          · simp [pruneSetF, h, hS, declOutsideF, declOutsideE,
              declCount_pruneSetF_notmem id S hid r]
          · simp [pruneSetF, h, hS, declCountF, declCountE, declOutsideF,
              declOutsideE, declCount_pruneSetF_notmem id S hid cs,
              declCount_pruneSetF_notmem id S hid r]
  | .consT s r => by
      simp [pruneSetF, declCountF, declOutsideF,
        declCount_pruneSetF_notmem id S hid r]
end

/-- The sequential per-prompt removals accumulate into one simultaneous
prune of the whole unused set. -/
theorem foldRemove_pruneSet :
    ∀ (l S0 : List String) (e : XElem),
      l.foldl (fun acc id => XR.removeNamedO id acc) (pruneSetE S0 e) =
        pruneSetE (S0 ++ l) e := by
  intro l
  induction l with
  | nil => intro S0 e; simp
  | cons a t ih =>
      intro S0 e
      show t.foldl _ (XR.removeNamedO a (pruneSetE S0 e)) = _
      rw [removeNamedO_pruneSetE a S0 e, ih (S0 ++ [a]) e,
        List.append_cons S0 a t]

/-- `repairUnusedPrompts` is the simultaneous prune of the unused set
computed on its input. -/
theorem repairUnusedPrompts_eq_prune (d : XElem) :
    XR.repairUnusedPrompts d = pruneSetE (XR.unusedPrompts d) d := by
  show (XR.unusedPrompts d).foldl
      (fun acc id => XR.removeNamedO id acc) (some d) = _
  rw [← pruneSetE_nil d, foldRemove_pruneSet (XR.unusedPrompts d) [] d]
  simp

/-- C8 (amended): after the unused-prompt pass, every identifier in the
pre-repair unused-prompt set has zero declaring elements; an identifier
outside that set keeps exactly those declaring elements that do not lie
inside a removed unused-prompt subtree. -/
theorem C8_amended (d : XElem) :
    (∀ id ∈ XR.unusedPrompts d,
      declCountO id (XR.repairUnusedPrompts d) = 0) ∧
    (∀ id, id ∉ XR.unusedPrompts d →
      declCountO id (XR.repairUnusedPrompts d) =
        declOutsideE (XR.unusedPrompts d) id d) := by
  rw [repairUnusedPrompts_eq_prune d]
  exact ⟨fun id hid => declCount_pruneSetE_mem id _ hid d,
    fun id hid => declCount_pruneSetE_notmem id _ hid d⟩

/-- C8 (witness): the amended exactness at `c8Doc`: the unused prompt
`pr1` loses all declaring elements; the used prompt `pr2` keeps exactly
its declarations outside the removed `pr1` subtree (namely none). -/
theorem C8_witness :
    declCountO "pr1" (XR.repairUnusedPrompts c8Doc) = 0 ∧
    declCountO "pr2" (XR.repairUnusedPrompts c8Doc) =
      declOutsideE (XR.unusedPrompts c8Doc) "pr2" c8Doc :=
  ⟨(C8_amended c8Doc).1 "pr1" (by decide),
   (C8_amended c8Doc).2 "pr2" (by decide)⟩

end BirdRepair
